import Mathlib

/-!
Verification of the package-manager core of `packman.py` (kivy-launcher).

The Python source is shallowly embedded: pure string utilities become Lean
functions on `List Char`; the archive scanners work on `List Nat` byte
sequences; the stateful installer is modelled as explicit state passing over
a record of cache/site directory contents, with network activity recorded in
an explicit trace list.  Python exceptions are modelled with `Except`.
-/

namespace Packman

/-- Python exception values raised by the embedded code. -/
inductive PyErr where
  | valueError (msg : String)
  | fileNotFound (msg : String)
deriving Repr, DecidableEq

/-- ASCII whitespace recognised by Python's `str.strip()`. -/
def pyIsSpace (c : Char) : Bool :=
  c = ' ' || c = '\t' || c = '\n' || c = '\r' || c = '\x0b' || c = '\x0c'

/-- Python `str.strip()` on a character list. -/
def pyStrip (l : List Char) : List Char :=
  ((l.dropWhile pyIsSpace).reverse.dropWhile pyIsSpace).reverse

/-- Character class of the leading-name regex `[a-zA-Z0-9_-]` in
`_parse_requirement`. -/
def isNameChar (c : Char) : Bool :=
  c.isAlpha || c.isDigit || c = '_' || c = '-'

/-- `match.group(1).lower().replace('_', '-')` applied per character
(name characters are ASCII, so `lower` acts characterwise). -/
def canonChar (c : Char) : Char :=
  if c = '_' then '-' else c.toLower

/-- The operator regex `^([<>=!]=?|~=)` of `_parse_requirement`: a character
from `[<>=!]` optionally followed by `=`, or the two-character `~=`.
Returns the matched operator text. -/
def matchOperator : List Char → Option String
  | [] => none
  | c :: rest =>
    if c = '<' || c = '>' || c = '=' || c = '!' then
      if rest.head? = some '=' then some (String.mk [c, '=']) else some (String.mk [c])
    else if c = '~' then
      if rest.head? = some '=' then some "~=" else none
    else none

/-- The tail of `_parse_requirement` after the name token: empty remainder
means "any version"; otherwise match the operator regex, then require a
non-empty version after stripping. -/
def parseRemaining (pkg : String) (remaining : List Char) :
    Except PyErr (String × String × String) :=
  if remaining = [] then .ok (pkg, "", "")
  else
    match matchOperator remaining with
    | some opStr =>
      if pyStrip (remaining.drop opStr.data.length) = [] then
        .error (.valueError "Version missing in requirement")
      else .ok (pkg, opStr, String.mk (pyStrip (remaining.drop opStr.data.length)))
    | none => .error (.valueError "Invalid requirement format")

/-- `_parse_requirement` on the already-stripped character list: take the
leading `[a-zA-Z0-9_-]+` token (`ValueError` if absent), canonicalize it
(lowercase, `_` to `-`), and parse the remainder after it (also stripped,
`req[len(package_name):].strip()`). -/
def parseAfterStrip (l : List Char) : Except PyErr (String × String × String) :=
  if l.takeWhile isNameChar = [] then
    .error (.valueError "Invalid package name in requirement")
  else
    parseRemaining (String.mk ((l.takeWhile isNameChar).map canonChar))
      (pyStrip (l.drop (l.takeWhile isNameChar).length))

/-- `_parse_requirement` (packman.py lines 142-176): strip, take the leading
name token, canonicalize, then match the operator regex and the version
text; `ValueError` on failure. -/
def _parse_requirement (req : String) : Except PyErr (String × String × String) :=
  parseAfterStrip (pyStrip req.data)

/-- Python `s.split(sep)` semantics on character lists: splitting the empty
list yields one empty part. -/
def splitOnChar (sep : Char) : List Char → List (List Char)
  | [] => [[]]
  | c :: cs =>
    if c = sep then [] :: splitOnChar sep cs
    else
      match splitOnChar sep cs with
      | h :: t => (c :: h) :: t
      | [] => [[c]]

/-- `v.split('.')` used by `normalize_version`. -/
def splitDot (l : List Char) : List (List Char) := splitOnChar '.' l

/-- `re.sub(r'[^0-9.]+.*', '', v)` removes everything from the first
character outside `[0-9.]` onward (each match deletes a run of bad
characters plus the rest of its line, and the global substitution repeats
until nothing past the first bad character survives), i.e. it keeps the
longest prefix over the alphabet `[0-9.]`. -/
def keepVerPrefix (v : String) : List Char :=
  v.data.takeWhile (fun c => c.isDigit || c = '.')

/-- Python `p.isdigit()` for the post-normalization alphabet (ASCII digits
or dots, so Unicode-only digit cases cannot arise). -/
def pyIsDigit (p : List Char) : Bool :=
  !p.isEmpty && p.all Char.isDigit

/-- Value of an ASCII digit string, as computed by `int(p)`. -/
def digitsVal (l : List Char) : Int :=
  l.foldl (fun a c => a * 10 + ((c.toNat : Int) - 48)) 0

/-- `int(p)`: succeeds exactly on the strings it is applied to by
`normalize_version` (non-empty ASCII digit runs), `ValueError` otherwise. -/
def intE (p : List Char) : Except PyErr Int :=
  if pyIsDigit p then .ok (digitsVal p) else .error (.valueError "invalid literal for int")

/-- The list comprehension `[int(p) if p.isdigit() else 0 for p in parts]`,
evaluated left to right with the first exception propagating. -/
def mapIntE : List (List Char) → Except PyErr (List Int)
  | [] => .ok []
  | p :: rest =>
    match (if pyIsDigit p then intE p else .ok 0) with
    | .error e => .error e
    | .ok x =>
      match mapIntE rest with
      | .error e => .error e
      | .ok xs => .ok (x :: xs)

/-- Python lexicographic `<` on integer lists. -/
def pyListLt : List Int → List Int → Bool
  | [], [] => false
  | [], _ :: _ => true
  | _ :: _, [] => false
  | a :: as, b :: bs =>
    if a < b then true else if b < a then false else pyListLt as bs

/-- Python `<=` on integer lists (`a <= b` iff `a < b` or `a == b`). -/
def pyListLe (x y : List Int) : Bool :=
  pyListLt x y || decide (x = y)

/-- The `try:` block of `_version_satisfies` (packman.py lines 201-228):
normalize both versions, right-pad with zeros to equal length, dispatch on
the operator.  `.ok none` is the fall-through (unrecognized operator) that
reaches the final `return False`; `.error` models an escaping exception
caught by the `except` clause. -/
def _version_satisfies_body (installed operator required : String) :
    Except PyErr (Option Bool) :=
  match mapIntE (splitDot (keepVerPrefix installed)) with
  | .error e => .error e
  | .ok instParts0 =>
    match mapIntE (splitDot (keepVerPrefix required)) with
    | .error e => .error e
    | .ok reqParts0 =>
      let maxLen := max instParts0.length reqParts0.length
      let instParts := instParts0 ++ List.replicate (maxLen - instParts0.length) (0 : Int)
      let reqParts := reqParts0 ++ List.replicate (maxLen - reqParts0.length) (0 : Int)
      if operator = "==" then .ok (some (decide (instParts = reqParts)))
      else if operator = ">=" then .ok (some (pyListLe reqParts instParts))
      else if operator = "<=" then .ok (some (pyListLe instParts reqParts))
      else if operator = ">" then .ok (some (pyListLt reqParts instParts))
      else if operator = "<" then .ok (some (pyListLt instParts reqParts))
      else if operator = "!=" then .ok (some (!decide (instParts = reqParts)))
      else if operator = "~=" then
        if 2 ≤ reqParts.length then
          let base := reqParts.dropLast
          let instBase := instParts.take base.length
          .ok (some (decide (instBase = base) && pyListLe reqParts instParts))
        else .ok (some (pyListLe reqParts instParts))
      else .ok none

/-- `_version_satisfies` (packman.py lines 179-232): empty operator is
always satisfied; otherwise run the body, with any exception and the
fall-through case both producing `False`. -/
def _version_satisfies (installed operator required : String) : Bool :=
  if operator = "" then true
  else
    match _version_satisfies_body installed operator required with
    | .ok (some b) => b
    | .ok none => false
    | .error _ => false

/-! ### The `.deb` (Unix `ar` container) scanner of `_install_from_termux`
(packman.py lines 293-317).  Files are byte lists (`List Nat`). -/

/-- Error raised by the scanner: `ValueError("Invalid .deb file format")`
on a bad magic, or `int(...)` failing on a malformed size field. -/
inductive DebErr where
  | invalidFormat
  | badSize
deriving Repr, DecidableEq

/-- The 8-byte ar magic, `b"!<arch>\n"`. -/
def arMagic : List Nat := [33, 60, 97, 114, 99, 104, 62, 10]

/-- ASCII bytes of the member-name substring `"data.tar"`. -/
def dataTarBytes : List Nat := [100, 97, 116, 97, 46, 116, 97, 114]

/-- `fname_bytes.rstrip(b' \x00')`. -/
def stripArName (l : List Nat) : List Nat :=
  (l.reverse.dropWhile (fun b => b = 32 || b = 0)).reverse

/-- Byte-level prefix test. -/
def isPrefixB : List Nat → List Nat → Bool
  | [], _ => true
  | _ :: _, [] => false
  | a :: as, b :: bs => a = b && isPrefixB as bs

/-- Byte-level substring test (`'data.tar' in fname`; member names here are
ASCII, where `decode('utf-8', errors='ignore')` is the identity, so the
Python substring test on the decoded string coincides with this byte test). -/
def containsSub (pat : List Nat) : List Nat → Bool
  | [] => isPrefixB pat []
  | l@(_ :: rest) => isPrefixB pat l || containsSub pat rest

/-- ASCII whitespace stripped by `bytes.strip()`. -/
def isWsByte (b : Nat) : Bool :=
  b = 32 || b = 9 || b = 10 || b = 13 || b = 11 || b = 12

/-- `bytes.strip()`. -/
def stripBytes (l : List Nat) : List Nat :=
  ((l.dropWhile isWsByte).reverse.dropWhile isWsByte).reverse

/-- ASCII decimal digit byte. -/
def isDigitByte (b : Nat) : Bool := 48 ≤ b && b ≤ 57

/-- Numeric value of an ASCII decimal byte string. -/
def decValue (l : List Nat) : Nat :=
  l.foldl (fun a b => a * 10 + (b - 48)) 0

/-- `int(header[48:58].strip())`: strip whitespace, then parse a decimal
number; raises `ValueError` on anything else. -/
def parseSizeE (bs : List Nat) : Except DebErr Nat :=
  let s := stripBytes bs
  if !s.isEmpty && s.all isDigitByte then .ok (decValue s) else .error .badSize

/-- The scanning loop of `_install_from_termux`: read 60-byte headers,
stop (returning the declared content) at the first member whose stripped
16-byte name contains `"data.tar"`, otherwise skip the member's content
plus one pad byte when its size is odd.  `.ok none` models falling off the
end without finding the member (the `data.tar` temp file is then never
written, so the subsequent `tarfile.open` fails and the install returns
`False`). -/
def debLoop (rest : List Nat) : Except DebErr (Option (List Nat)) :=
  if _h : rest.length < 60 then .ok none
  else
    let header := rest.take 60
    let fname := stripArName (header.take 16)
    match parseSizeE ((header.drop 48).take 10) with
    | .error e => .error e
    | .ok size =>
      if containsSub dataTarBytes fname then .ok (some ((rest.drop 60).take size))
      else debLoop (((rest.drop 60).drop size).drop (size % 2))
termination_by rest.length
decreasing_by
  simp only [List.length_drop]
  omega

/-- The full scan (packman.py lines 293-317): check the 8-byte magic
(`ValueError` on mismatch), then run the member loop on the remainder. -/
def debFindData (file : List Nat) : Except DebErr (Option (List Nat)) :=
  if file.take 8 = arMagic then debLoop (file.drop 8)
  else .error .invalidFormat

/-! ### A well-formed ar archive, built member by member, used to state what
the scanner extracts. -/

/-- One archive member: raw name bytes and content bytes. -/
structure ArMember where
  name : List Nat
  content : List Nat
deriving Repr, DecidableEq

/-- Right-pad a byte list to length `n` with byte `pad`. -/
def padTo (n pad : Nat) (l : List Nat) : List Nat :=
  l ++ List.replicate (n - l.length) pad

/-- Decimal digits of `n`, least significant first, as raw digit values. -/
def revDigits (n : Nat) : List Nat :=
  if h : n = 0 then [] else (n % 10) :: revDigits (n / 10)
termination_by n
decreasing_by
  exact Nat.div_lt_self (Nat.pos_of_ne_zero h) (by omega)

/-- ASCII decimal representation of `n`, most significant digit first. -/
def natDigitsAscii (n : Nat) : List Nat :=
  if n = 0 then [48] else ((revDigits n).map (fun d => d + 48)).reverse

/-- A 60-byte ar member header: 16-byte space-padded name, 32 bytes of
metadata (mtime/uid/gid/mode, ignored by the scanner), 10-byte
space-padded decimal size, and the 2-byte end marker. -/
def mkHeader (name : List Nat) (size : Nat) : List Nat :=
  padTo 16 32 name ++ List.replicate 32 32 ++ padTo 10 32 (natDigitsAscii size) ++ [96, 10]

/-- Pad byte after odd-length content (ar even alignment). -/
def arPad (content : List Nat) : List Nat :=
  List.replicate (content.length % 2) 10

/-- Encoding of one member: header, content, alignment pad. -/
def encodeMember (m : ArMember) : List Nat :=
  mkHeader m.name m.content.length ++ (m.content ++ arPad m.content)

/-- Concatenated member encodings. -/
def encodeMembers : List ArMember → List Nat
  | [] => []
  | m :: ms => encodeMember m ++ encodeMembers ms

/-- A complete ar archive: magic followed by the members. -/
def encodeAr (ms : List ArMember) : List Nat :=
  arMagic ++ encodeMembers ms

/-- Well-formedness of a member for the 60-byte fixed header layout: a
non-empty printable-ASCII name (no spaces or NULs, so the name survives
`rstrip` and UTF-8 decoding) of at most 16 bytes, and a content size whose
decimal form fits the 10-byte size field. -/
def goodMemberB (m : ArMember) : Bool :=
  !m.name.isEmpty && m.name.length ≤ 16 &&
    m.name.all (fun b => 32 < b && b < 127) && m.content.length < 10 ^ 10

/-! ### The source-archive extraction loop of `_install_from_pypi`
(packman.py lines 420-440).  The destination (`pkg_cache`) is modelled as a
small filesystem: a file map and a set of created directories, both keyed by
path segments relative to `pkg_cache`. -/

/-- `str.startswith` on character lists. -/
def isPrefixCh : List Char → List Char → Bool
  | [], _ => true
  | _ :: _, [] => false
  | a :: as, b :: bs => a = b && isPrefixCh as bs

/-- `'/'.join(parts)` on character-list parts. -/
def joinSlash : List (List Char) → List Char
  | [] => []
  | [p] => p
  | p :: rest => p ++ '/' :: joinSlash rest

/-- One tar member as seen through `tarfile`: slash-separated name, whether
it is a regular file, and its content bytes. -/
structure TarMember where
  name : String
  isfile : Bool
  content : List Nat
deriving Repr, DecidableEq

/-- Destination filesystem: files (path segments, content) and the set of
directories created below the destination root. -/
structure FS where
  files : List (List String × List Nat)
  dirs : List (List String)
deriving Repr, DecidableEq

/-- Path segments of a slash-separated name, as `pathlib.Path` normalizes
them (empty segments dropped). -/
def pathSegsL (l : List Char) : List String :=
  ((splitOnChar '/' l).filter (fun s => s ≠ [])).map String.mk

/-- All non-empty prefixes of a path, shortest first. -/
def pathPrefixes (p : List String) : List (List String) :=
  (List.range p.length).map (fun i => p.take (i + 1))

/-- Record one directory as existing. -/
def addDirFS (dirs : List (List String)) (d : List String) : List (List String) :=
  if d ∈ dirs then dirs else dirs ++ [d]

/-- `mkdir(parents=True, exist_ok=True)`: create the directory and all its
ancestors. -/
def mkdirParents (dirs : List (List String)) (p : List String) : List (List String) :=
  (pathPrefixes p).foldl addDirFS dirs

/-- Write (or overwrite) a file. -/
def setFile (files : List (List String × List Nat)) (p : List String) (c : List Nat) :
    List (List String × List Nat) :=
  if (files.find? (fun q => q.1 = p)).isSome then
    files.map (fun q => if q.1 = p then (p, c) else q)
  else files ++ [(p, c)]

/-- Remove a file. -/
def delFile (files : List (List String × List Nat)) (p : List String) :
    List (List String × List Nat) :=
  files.filter (fun q => ¬q.1 = p)

/-- Does a file exist at this path? -/
def fileExists (fs : FS) (p : List String) : Bool :=
  (fs.files.find? (fun q => q.1 = p)).isSome

/-- Content of the file at this path, if any. -/
def getFile (fs : FS) (p : List String) : Option (List Nat) :=
  (fs.files.find? (fun q => q.1 = p)).map (fun q => q.2)

/-- `tar.extract(member, pkg_cache)` for a regular file: create the parent
directories of the member's own (unstripped) name and write its content
there. -/
def tarExtractFile (fs : FS) (p : List String) (c : List Nat) : FS :=
  { files := setFile fs.files p c, dirs := mkdirParents fs.dirs p.dropLast }

/-- `shutil.move(extracted, target)`: rename the file (the directories the
extraction created are left behind). -/
def moveFile (fs : FS) (src dst : List String) : FS :=
  match getFile fs src with
  | some c => { fs with files := setFile (delFile fs.files src) dst c }
  | none => fs

/-- One iteration of the `for member in members` loop (packman.py lines
428-440). -/
def tarStep (root : String) (fs : FS) (m : TarMember) : FS :=
  let nameChars := m.name.data
  if isPrefixCh (root.data ++ ['/']) nameChars && decide (root.data.length < nameChars.length) then
    let relative := joinSlash ((splitOnChar '/' nameChars).drop 1)
    if relative = [] then fs
    else
      let target := pathSegsL relative
      let fs1 : FS := { fs with dirs := mkdirParents fs.dirs target.dropLast }
      if m.isfile then
        let extracted := pathSegsL nameChars
        let fs2 := tarExtractFile fs1 extracted m.content
        if fileExists fs2 extracted then moveFile fs2 extracted target else fs2
      else fs1
  else fs

/-- The tar branch of `_install_from_pypi`'s extraction (packman.py lines
420-440): empty archives raise, otherwise the first member's leading path
segment is stripped from every member written into the destination. -/
def extractTar (members : List TarMember) (fs : FS) : Except PyErr FS :=
  match members with
  | [] => .error (.valueError "Empty archive")
  | m0 :: _ =>
    let root :=
      match splitOnChar '/' m0.name.data with
      | r :: _ => String.mk r
      | [] => ""
    .ok (members.foldl (tarStep root) fs)

/-! ### The cache / project-site state model used by `install`,
`is_installed`, `_install_from_termux` and `_install_from_pypi`.

A top-level entry of a cache directory or of a project site directory is an
`Item`; importing a module named after such an entry yields the recorded
`__version__` attribute (`none` when the module has no such attribute, in
which case `getattr(mod, '__version__', '0.0.0')` defaults it). -/

structure Item where
  ver : Option String
  content : List Nat
deriving Repr, DecidableEq

/-- Contents of a directory, as an association list of named items. -/
abbrev Listing := List (String × Item)

/-- First-match association lookup (`path.exists()` / name resolution). -/
def alookup {α : Type} : List (String × α) → String → Option α
  | [], _ => none
  | p :: rest, k => if p.1 = k then some p.2 else alookup rest k

/-- Insert-or-overwrite an association. -/
def aset {α : Type} : List (String × α) → String → α → List (String × α)
  | [], k, v => [(k, v)]
  | p :: rest, k, v => if p.1 = k then (k, v) :: rest else p :: aset rest k v

/-- The linking loop of `install` (packman.py lines 612-624): for every
top-level cache item, create a link (or copy) in the site directory
unless an entry of that name already exists.  Symlinks and copies are both
modelled as placing the item, which is content-equivalent. -/
def materialize : Listing → Listing → Listing
  | site, [] => site
  | site, p :: rest =>
    materialize (if (alookup site p.1).isSome then site else site ++ [p]) rest

/-- `shutil.copytree(..., dirs_exist_ok=True)` merge: new entries overwrite
old ones of the same name. -/
def mergeListing (old new : Listing) : Listing :=
  new.foldl (fun acc p => aset acc p.1 p.2) old

/-- Mutable state threaded through an `install` call: the shared package
cache (package name to extracted listing) and the project's site directory
listing. -/
structure St where
  cache : List (String × Listing)
  site : Listing
deriving Repr, DecidableEq

/-- The network, as an oracle: the Termux HEAD probe, the payload obtained
by downloading and extracting the Termux `.deb` (its `site-packages`
listing; `none` models any download/format/not-found failure), and the
payload of the selected PyPI source distribution. -/
structure Env where
  termuxHas : String → Bool
  termuxFetch : String → Option Listing
  pypiFetch : String → String → String → Option Listing

/-- `is_installed` (packman.py lines 528-555) at the cache/site level of
abstraction: parse (any exception gives `False`), import the package from
the project site directory, compare its `__version__` (default `"0.0.0"`)
against the constraint. -/
def is_installed (st : St) (req : String) : Bool :=
  match _parse_requirement req with
  | .error _ => false
  | .ok (name, op, ver) =>
    match alookup st.site name with
    | some it => _version_satisfies (it.ver.getD "0.0.0") op ver
    | none => false

/-- `_install_from_termux` (packman.py lines 264-354): success immediately
if the cache entry exists (no network traffic); otherwise download the
`.deb` (recorded in the trace) and, on success, copy its site-packages
payload into a fresh cache entry. -/
def _install_from_termux (env : Env) (st : St) (pkg : String) :
    Bool × St × List String :=
  if (alookup st.cache pkg).isSome then (true, st, [])
  else
    match env.termuxFetch pkg with
    | some payload =>
      (true, { st with cache := st.cache ++ [(pkg, payload)] }, ["GET " ++ pkg ++ ".deb"])
    | none => (false, st, ["GET " ++ pkg ++ ".deb"])

/-- `_install_from_pypi` (packman.py lines 358-463): it has no cache
short-circuit — the index page for the package is always requested first
(recorded in the trace); on success the extracted payload is merged into
the cache entry (`pkg_cache.mkdir(exist_ok=True)` plus per-file writes). -/
def _install_from_pypi (env : Env) (st : St) (pkg op ver : String) :
    Bool × St × List String :=
  match env.pypiFetch pkg op ver with
  | some payload =>
    (true,
      { st with cache := aset st.cache pkg (mergeListing ((alookup st.cache pkg).getD []) payload) },
      ["GET index/" ++ pkg, "GET sdist/" ++ pkg])
  | none => (false, st, ["GET index/" ++ pkg])

/-- Installation source (`Source = Literal["termux", "pypi", "auto"]`). -/
inductive Source where
  | termux
  | pypi
  | auto
deriving Repr, DecidableEq

/-- The source-selection block of `install` (packman.py lines 592-603):
explicit source, or probe Termux and fall back to PyPI. -/
def selectedInstall (env : Env) (st : St) (name op ver : String) (source : Source) :
    Bool × St × List String :=
  match source with
  | .termux => _install_from_termux env st name
  | .pypi => _install_from_pypi env st name op ver
  | .auto =>
    if env.termuxHas name then
      let r := _install_from_termux env st name
      (r.1, r.2.1, ("HEAD " ++ name ++ ".deb") :: r.2.2)
    else
      let r := _install_from_pypi env st name op ver
      (r.1, r.2.1, ("HEAD " ++ name ++ ".deb") :: r.2.2)

/-- `install` (packman.py lines 558-627): parse (a `ValueError` escapes to
the caller), short-circuit when already satisfied, run the selected
installer, then link the cache entry (if present) into the project site
directory.  The trace lists the network operations performed. -/
def install (env : Env) (st : St) (req : String) (source : Source) :
    Except PyErr (Bool × St × List String) :=
  match _parse_requirement req with
  | .error e => .error e
  | .ok (name, op, ver) =>
    if is_installed st req then .ok (true, st, [])
    else
      let r := selectedInstall env st name op ver source
      if r.1 then
        match alookup r.2.1.cache name with
        | some entry =>
          .ok (true, { r.2.1 with site := materialize r.2.1.site entry }, r.2.2)
        | none => .ok (true, r.2.1, r.2.2)
      else .ok (false, r.2.1, r.2.2)

/-! ### Process-level effects of `is_installed` (packman.py lines 528-555
with `get_project_site_packages`, lines 497-512): module search path,
loaded-module table, and created directories. -/

/-- Observable process state for the `is_installed` frame claim. -/
structure SysSt where
  path : List String
  modules : List String
  dirs : List String
deriving Repr, DecidableEq

/-- Record a directory as existing. -/
def addDirStr (dirs : List String) (d : String) : List String :=
  if d ∈ dirs then dirs else dirs ++ [d]

/-- Create every directory of a chain (ancestors first). -/
def mkdirChain (dirs : List String) (chain : List String) : List String :=
  chain.foldl addDirStr dirs

/-- The project site directory path,
`<app-files>/projects/<project>/site-packages`. -/
def siteDirStr (proj : String) : String :=
  "files/projects/" ++ proj ++ "/site-packages"

/-- The ancestor chain created by
`site_dir.mkdir(parents=True, exist_ok=True)`. -/
def siteDirChain (proj : String) : List String :=
  ["files", "files/projects", "files/projects/" ++ proj, siteDirStr proj]

/-- `is_installed` with its process-level effects made explicit.  `imp` is
the import oracle: `none` for `ImportError`, `some v` for a successful
module import with `__version__` attribute `v`.  The code: parse; create the site
directory (`get_project_site_packages` calls `mkdir(parents=True,
exist_ok=True)`); save `sys.path`, prepend the site directory; import and
compare versions; restore `sys.path` in the `finally` block. -/
def is_installed_effects (imp : String → Option (Option String)) (st : SysSt)
    (req : String) (proj : String) : Bool × SysSt :=
  match _parse_requirement req with
  | .error _ => (false, st)
  | .ok (name, op, ver) =>
    let st1 : SysSt := { st with dirs := mkdirChain st.dirs (siteDirChain proj) }
    let original := st1.path
    let st2 : SysSt := { st1 with path := siteDirStr proj :: st1.path }
    match imp name with
    | none => (false, { st2 with path := original })
    | some v =>
      let st3 : SysSt :=
        { st2 with modules := if name ∈ st2.modules then st2.modules else st2.modules ++ [name] }
      (_version_satisfies (v.getD "0.0.0") op ver, { st3 with path := original })

/-- Value of a least-significant-first digit list (proof helper for the
decimal size field). -/
def valRev : List Nat → Nat
  | [] => 0
  | d :: ds => d + 10 * valRev ds

/-! ### Concrete inputs used to settle individual claims. -/

/-- Map of the list comprehension in `normalize_version`, as a pure
function (it never raises; see `mapIntE_ok`). -/
def intOrZero (p : List Char) : Int :=
  if pyIsDigit p then digitsVal p else 0

/-- A network oracle on which every fetch fails. -/
def envNoNet : Env := ⟨fun _ => false, fun _ => none, fun _ _ _ => none⟩

/-- State whose shared cache already holds package `foo` at version `2.0`,
with an empty project site directory. -/
def stFooCached : St := ⟨[("foo", [("foo", ⟨some "2.0", []⟩)])], []⟩

/-- The state `install envNoNet stFooCached "foo==1.0" Source.termux`
ends in: the cached `foo` (version `2.0`) linked into the site directory. -/
def stFooLinked : St :=
  ⟨[("foo", [("foo", ⟨some "2.0", []⟩)])], [("foo", ⟨some "2.0", []⟩)]⟩

/-- A second cached-`foo` state, used for the PyPI short-circuit claim. -/
def stBarCached : St := ⟨[("bar", [("bar", ⟨some "1.0", []⟩)])], []⟩

/-- The tar archive of the source-archive stripping test vector: sole
top-level entry `mypkg-1.0/`, one file `mypkg-1.0/mypkg/__init__.py` with
content `b"ok"` (`[111, 107]`). -/
def tarStripMembers : List TarMember :=
  [⟨"mypkg-1.0/", false, []⟩, ⟨"mypkg-1.0/mypkg/__init__.py", true, [111, 107]⟩]

/-- What `extractTar tarStripMembers` produces on an empty destination:
the stripped file, plus the leftover directories that
`tar.extract`-then-`shutil.move` leaves behind. -/
def tarStripResult : FS :=
  ⟨[(["mypkg", "__init__.py"], [111, 107])],
   [["mypkg"], ["mypkg-1.0"], ["mypkg-1.0", "mypkg"]]⟩

/-- Import oracle on which every import raises `ImportError`. -/
def impNone : String → Option (Option String) := fun _ => none

/-- A process state with one search-path entry, no loaded modules and no
directories below the application root. -/
def sysSt0 : SysSt := ⟨["p0"], [], []⟩

/-- ar member named `control.tar.gz` (skipped by the scanner). -/
def ctrlMember : ArMember :=
  ⟨[99, 111, 110, 116, 114, 111, 108, 46, 116, 97, 114, 46, 103, 122], [1]⟩

/-- ar member named `data.tar.xz` (the scanner's target). -/
def dataMember : ArMember :=
  ⟨[100, 97, 116, 97, 46, 116, 97, 114, 46, 120, 122], [2, 3]⟩

/-- A site directory already holding an entry `x`. -/
def siteWithX : Listing := [("x", ⟨none, [1]⟩)]

/-- A cache entry that also holds an `x` (different content) and a `y`. -/
def entryWithX : Listing := [("x", ⟨none, [2]⟩), ("y", ⟨none, [3]⟩)]

/-! ## Helper lemmas -/

theorem takeAppendN {α : Type} (l1 l2 : List α) (n : Nat) (h : l1.length = n) :
    (l1 ++ l2).take n = l1 := by
  subst h; simp

theorem dropAppendN {α : Type} (l1 l2 : List α) (n : Nat) (h : l1.length = n) :
    (l1 ++ l2).drop n = l2 := by
  subst h; simp

theorem alookup_append_left {α : Type} (l1 l2 : List (String × α)) (k : String) (v : α)
    (h : alookup l1 k = some v) : alookup (l1 ++ l2) k = some v := by
  induction l1 with
  | nil => simp [alookup] at h
  | cons p rest ih =>
    by_cases hp : p.1 = k
    · simpa [alookup, hp] using h
    · simp [alookup, hp] at h ⊢
      exact ih h

theorem dropWhile_replicate32 (p : Nat → Bool) (hp : p 32 = true) (k : Nat) (l : List Nat) :
    List.dropWhile p (List.replicate k 32 ++ l) = List.dropWhile p l := by
  induction k with
  | zero => simp
  | succ k ih => simp [List.replicate_succ, List.dropWhile_cons, hp, ih]

theorem rstrip_pad (p : Nat → Bool) (hp : p 32 = true) (l : List Nat) (k : Nat)
    (h1 : l ≠ []) (h2 : ∀ b ∈ l, p b = false) :
    ((l ++ List.replicate k 32).reverse.dropWhile p).reverse = l := by
  rw [List.reverse_append, List.reverse_replicate, dropWhile_replicate32 p hp]
  cases hr : l.reverse with
  | nil => exact absurd (List.reverse_eq_nil_iff.mp hr) h1
  | cons c t =>
    have hc : c ∈ l := by
      have : c ∈ l.reverse := by rw [hr]; exact List.mem_cons_self c t
      exact List.mem_reverse.mp this
    rw [List.dropWhile_cons, h2 c hc, if_neg Bool.false_ne_true, ← hr, List.reverse_reverse]

theorem stripArName_pad (name : List Nat) (k : Nat) (h1 : name ≠ [])
    (h2 : ∀ b ∈ name, 32 < b ∧ b < 127) :
    stripArName (name ++ List.replicate k 32) = name := by
  unfold stripArName
  refine rstrip_pad _ (by decide) name k h1 (fun b hb => ?_)
  have hb2 := h2 b hb
  simp only [Bool.or_eq_false_iff, decide_eq_false_iff_not]
  omega

theorem stripBytes_pad (l : List Nat) (k : Nat) (h1 : l ≠ [])
    (h2 : ∀ b ∈ l, isWsByte b = false) :
    stripBytes (l ++ List.replicate k 32) = l := by
  unfold stripBytes
  have hfront :
      List.dropWhile isWsByte (l ++ List.replicate k 32) = l ++ List.replicate k 32 := by
    cases l with
    | nil => exact absurd rfl h1
    | cons c t =>
      rw [List.cons_append, List.dropWhile_cons, h2 c (List.mem_cons_self c t)]
      simp
  rw [hfront]
  exact rstrip_pad isWsByte (by decide) l k h1 h2

theorem revDigits_zero : revDigits 0 = [] := by
  rw [revDigits]; simp

theorem revDigits_pos (n : Nat) (h : n ≠ 0) :
    revDigits n = n % 10 :: revDigits (n / 10) := by
  rw [revDigits]; simp [h]

theorem valRev_revDigits (n : Nat) : valRev (revDigits n) = n := by
  induction n using Nat.strong_induction_on with
  | _ n ih =>
    by_cases h : n = 0
    · subst h; rw [revDigits_zero]; rfl
    · rw [revDigits_pos n h]
      have hlt := ih (n / 10) (Nat.div_lt_self (Nat.pos_of_ne_zero h) (by omega))
      simp [valRev, hlt]
      omega

theorem revDigits_lt_ten (n : Nat) : ∀ d ∈ revDigits n, d < 10 := by
  induction n using Nat.strong_induction_on with
  | _ n ih =>
    by_cases h : n = 0
    · subst h; rw [revDigits_zero]; intro d hd; simp at hd
    · rw [revDigits_pos n h]
      intro d hd
      rcases List.mem_cons.mp hd with h1 | h2
      · omega
      · exact ih (n / 10) (Nat.div_lt_self (Nat.pos_of_ne_zero h) (by omega)) d h2

theorem revDigits_length_le (k : Nat) : ∀ n, n < 10 ^ k → (revDigits n).length ≤ k := by
  induction k with
  | zero =>
    intro n h
    have : n = 0 := by simpa using h
    subst this; rw [revDigits_zero]; simp
  | succ k ih =>
    intro n h
    by_cases h0 : n = 0
    · subst h0; rw [revDigits_zero]; simp
    · rw [revDigits_pos n h0]
      have hdiv : n / 10 < 10 ^ k := by
        rw [Nat.div_lt_iff_lt_mul (by omega)]
        calc n < 10 ^ (k + 1) := h
        _ = 10 ^ k * 10 := by rw [pow_succ]
      simpa using ih (n / 10) hdiv

theorem decValue_aux (dl : List Nat) (a : Nat) :
    List.foldl (fun x b => x * 10 + (b - 48)) a ((dl.map (fun d => d + 48)).reverse)
      = a * 10 ^ dl.length + valRev dl := by
  induction dl generalizing a with
  | nil => simp [valRev]
  | cons d ds ih =>
    rw [List.map_cons, List.reverse_cons, List.foldl_append, ih a]
    simp [valRev, List.foldl]
    rw [pow_succ]
    ring

theorem decValue_natDigitsAscii (n : Nat) : decValue (natDigitsAscii n) = n := by
  unfold natDigitsAscii
  by_cases h : n = 0
  · subst h; decide
  · simp only [h, if_false]
    unfold decValue
    rw [decValue_aux (revDigits n) 0]
    simp [valRev_revDigits]

theorem natDigitsAscii_ne_nil (n : Nat) : natDigitsAscii n ≠ [] := by
  unfold natDigitsAscii
  by_cases h : n = 0
  · simp [h]
  · simp only [h, if_false]
    simp [List.reverse_eq_nil_iff, List.map_eq_nil_iff]
    rw [revDigits_pos n h]
    simp

theorem natDigitsAscii_all_digits (n : Nat) :
    ∀ b ∈ natDigitsAscii n, isDigitByte b = true := by
  unfold natDigitsAscii
  by_cases h : n = 0
  · simp [h]; decide
  · simp only [h, if_false]
    intro b hb
    rw [List.mem_reverse, List.mem_map] at hb
    obtain ⟨d, hd, rfl⟩ := hb
    have := revDigits_lt_ten n d hd
    simp [isDigitByte]
    omega

theorem natDigitsAscii_length_le10 (n : Nat) (h : n < 10 ^ 10) :
    (natDigitsAscii n).length ≤ 10 := by
  unfold natDigitsAscii
  by_cases h0 : n = 0
  · simp [h0]
  · simp only [h0, if_false, List.length_reverse, List.length_map]
    exact revDigits_length_le 10 n h

theorem digit_not_ws (b : Nat) (h : isDigitByte b = true) : isWsByte b = false := by
  simp [isDigitByte] at h
  simp [isWsByte]
  omega

theorem parseSizeE_pad (n k : Nat) :
    parseSizeE (natDigitsAscii n ++ List.replicate k 32) = .ok n := by
  unfold parseSizeE
  rw [stripBytes_pad _ k (natDigitsAscii_ne_nil n)
    (fun b hb => digit_not_ws b (natDigitsAscii_all_digits n b hb))]
  have hall : (natDigitsAscii n).all isDigitByte = true :=
    List.all_eq_true.mpr (natDigitsAscii_all_digits n)
  have hne : (natDigitsAscii n).isEmpty = false := by
    cases hv : natDigitsAscii n with
    | nil => exact absurd hv (natDigitsAscii_ne_nil n)
    | cons a t => simp
  simp [hne, hall, decValue_natDigitsAscii]

theorem padTo_length (n pad : Nat) (l : List Nat) (h : l.length ≤ n) :
    (padTo n pad l).length = n := by
  simp [padTo]
  omega

theorem padTo_eq_append (n pad : Nat) (l : List Nat) :
    padTo n pad l = l ++ List.replicate (n - l.length) pad := rfl

theorem mkHeader_length (name : List Nat) (size : Nat) (h1 : name.length ≤ 16)
    (h2 : (natDigitsAscii size).length ≤ 10) : (mkHeader name size).length = 60 := by
  simp [mkHeader, padTo_length 16 32 name h1, padTo_length 10 32 _ h2]

theorem mkHeader_take16 (name : List Nat) (size : Nat) (h1 : name.length ≤ 16) :
    (mkHeader name size).take 16 = padTo 16 32 name := by
  unfold mkHeader
  rw [List.append_assoc, List.append_assoc]
  exact takeAppendN _ _ 16 (padTo_length 16 32 name h1)

theorem mkHeader_drop48_take10 (name : List Nat) (size : Nat) (h1 : name.length ≤ 16)
    (h2 : (natDigitsAscii size).length ≤ 10) :
    ((mkHeader name size).drop 48).take 10 = padTo 10 32 (natDigitsAscii size) := by
  unfold mkHeader
  rw [List.append_assoc]
  rw [dropAppendN (padTo 16 32 name ++ List.replicate 32 32) _ 48
    (by simp [padTo_length 16 32 name h1])]
  exact takeAppendN _ _ 10 (padTo_length 10 32 _ h2)

theorem goodMemberB_unpack (m : ArMember) (hm : goodMemberB m = true) :
    m.name ≠ [] ∧ m.name.length ≤ 16 ∧ (∀ b ∈ m.name, 32 < b ∧ b < 127) ∧
      m.content.length < 10 ^ 10 := by
  simp only [goodMemberB, Bool.and_eq_true, decide_eq_true_eq, List.all_eq_true] at hm
  obtain ⟨⟨⟨h1, h2⟩, h3⟩, h4⟩ := hm
  refine ⟨fun hnil => ?_, h2, fun b hb => ?_, h4⟩
  · rw [hnil] at h1
    simp at h1
  · have := h3 b hb
    simpa [Bool.and_eq_true] using this

theorem encodeMember_split (m : ArMember) :
    encodeMember m = mkHeader m.name m.content.length ++ (m.content ++ arPad m.content) := rfl

theorem arPad_length (content : List Nat) : (arPad content).length = content.length % 2 := by
  simp [arPad]

theorem debLoop_member (m : ArMember) (hm : goodMemberB m = true) (rest : List Nat) :
    debLoop (encodeMember m ++ rest) =
      if containsSub dataTarBytes m.name then .ok (some m.content) else debLoop rest := by
  obtain ⟨hne, hlen, hbytes, hclen⟩ := goodMemberB_unpack m hm
  have hd10 := natDigitsAscii_length_le10 _ hclen
  have hH := mkHeader_length m.name m.content.length hlen hd10
  rw [encodeMember_split, List.append_assoc]
  rw [debLoop]
  have hlen2 :
      ¬ (mkHeader m.name m.content.length ++ (m.content ++ arPad m.content ++ rest)).length < 60 := by
    simp [hH]
  rw [dif_neg hlen2]
  have htake :
      (mkHeader m.name m.content.length ++ (m.content ++ arPad m.content ++ rest)).take 60
        = mkHeader m.name m.content.length := takeAppendN _ _ 60 hH
  have hdrop :
      (mkHeader m.name m.content.length ++ (m.content ++ arPad m.content ++ rest)).drop 60
        = m.content ++ arPad m.content ++ rest := dropAppendN _ _ 60 hH
  simp only [htake, hdrop]
  rw [mkHeader_take16 _ _ hlen, mkHeader_drop48_take10 _ _ hlen hd10]
  rw [padTo_eq_append 16 32 m.name, stripArName_pad m.name _ hne hbytes]
  rw [padTo_eq_append 10 32 _, parseSizeE_pad]
  by_cases hc : containsSub dataTarBytes m.name
  · simp only [hc, if_true]
    rw [List.append_assoc]
    rw [takeAppendN m.content _ m.content.length rfl]
  · have hcf : containsSub dataTarBytes m.name = false := by simpa using hc
    simp only [hcf, Bool.false_eq_true, if_false]
    rw [List.append_assoc]
    rw [dropAppendN m.content _ m.content.length rfl]
    rw [dropAppendN (arPad m.content) rest (m.content.length % 2) (arPad_length m.content)]

theorem debLoop_nil : debLoop [] = .ok none := by
  rw [debLoop]
  rfl

theorem debLoop_encodeMembers_none (ms : List ArMember)
    (h : ∀ m ∈ ms, goodMemberB m = true ∧ containsSub dataTarBytes m.name = false) :
    debLoop (encodeMembers ms) = .ok none := by
  induction ms with
  | nil => exact debLoop_nil
  | cons m ms ih =>
    rw [show encodeMembers (m :: ms) = encodeMember m ++ encodeMembers ms from rfl]
    rw [debLoop_member m (h m (List.mem_cons_self m ms)).1]
    rw [(h m (List.mem_cons_self m ms)).2, if_neg Bool.false_ne_true]
    exact ih (fun x hx => h x (List.mem_cons_of_mem m hx))

theorem debLoop_encodeMembers_hit (pre : List ArMember) (t : ArMember) (post : List ArMember)
    (hpre : ∀ m ∈ pre, goodMemberB m = true ∧ containsSub dataTarBytes m.name = false)
    (ht : goodMemberB t = true) (htc : containsSub dataTarBytes t.name = true) :
    debLoop (encodeMembers (pre ++ t :: post)) = .ok (some t.content) := by
  induction pre with
  | nil =>
    rw [List.nil_append]
    rw [show encodeMembers (t :: post) = encodeMember t ++ encodeMembers post from rfl]
    rw [debLoop_member t ht, htc, if_pos rfl]
  | cons m pre ih =>
    rw [List.cons_append]
    rw [show encodeMembers (m :: (pre ++ t :: post))
        = encodeMember m ++ encodeMembers (pre ++ t :: post) from rfl]
    rw [debLoop_member m (hpre m (List.mem_cons_self m pre)).1]
    rw [(hpre m (List.mem_cons_self m pre)).2, if_neg Bool.false_ne_true]
    exact ih (fun x hx => hpre x (List.mem_cons_of_mem m hx))

theorem debFindData_encodeAr (ms : List ArMember) :
    debFindData (encodeAr ms) = debLoop (encodeMembers ms) := by
  unfold debFindData encodeAr
  rw [takeAppendN arMagic _ 8 rfl, dropAppendN arMagic _ 8 rfl]
  rw [if_pos rfl]

theorem mapIntE_ok (l : List (List Char)) : mapIntE l = .ok (l.map intOrZero) := by
  induction l with
  | nil => rfl
  | cons p rest ih =>
    rw [show mapIntE (p :: rest)
        = (match (if pyIsDigit p then intE p else .ok 0) with
           | .error e => .error e
           | .ok x =>
             match mapIntE rest with
             | .error e => .error e
             | .ok xs => .ok (x :: xs)) from rfl]
    rw [ih]
    by_cases hp : pyIsDigit p = true
    · simp [hp, intE, intOrZero]
    · have hp' : pyIsDigit p = false := by simpa using hp
      simp [hp', intOrZero]

theorem version_body_ok (installed operator required : String) :
    ∃ o : Option Bool, _version_satisfies_body installed operator required = .ok o := by
  unfold _version_satisfies_body
  rw [mapIntE_ok, mapIntE_ok]
  dsimp only []
  repeat' split
  all_goals exact ⟨_, rfl⟩

theorem mem_addDirStr (dirs : List String) (c d : String) (h : d ∈ addDirStr dirs c) :
    d ∈ dirs ∨ d = c := by
  unfold addDirStr at h
  by_cases hc : c ∈ dirs
  · rw [if_pos hc] at h
    exact Or.inl h
  · rw [if_neg hc] at h
    rcases List.mem_append.mp h with h1 | h2
    · exact Or.inl h1
    · simp at h2
      exact Or.inr h2

theorem mem_mkdirChain (chain : List String) :
    ∀ dirs d, d ∈ mkdirChain dirs chain → d ∈ dirs ∨ d ∈ chain := by
  induction chain with
  | nil => intro dirs d h; exact Or.inl h
  | cons c rest ih =>
    intro dirs d h
    rw [show mkdirChain dirs (c :: rest) = mkdirChain (addDirStr dirs c) rest from rfl] at h
    rcases ih (addDirStr dirs c) d h with h1 | h2
    · rcases mem_addDirStr dirs c d h1 with h3 | h4
      · exact Or.inl h3
      · exact Or.inr (by simp [h4])
    · exact Or.inr (List.mem_cons_of_mem c h2)

theorem matchOperator_mem (l : List Char) (o : String) (h : matchOperator l = some o) :
    o ∈ (["==", ">=", "<=", ">", "<", "!=", "~=", "=", "!"] : List String) := by
  cases l with
  | nil => simp [matchOperator] at h
  | cons c rest =>
    simp only [matchOperator] at h
    by_cases h1 : (c = '<' || c = '>' || c = '=' || c = '!') = true
    · rw [if_pos h1] at h
      have hc : c = '<' ∨ c = '>' ∨ c = '=' ∨ c = '!' := by
        have := h1
        simp only [Bool.or_eq_true, decide_eq_true_eq] at this
        tauto
      by_cases h2 : rest.head? = some '='
      · rw [if_pos h2] at h
        injection h with h
        subst h
        rcases hc with rfl | rfl | rfl | rfl <;> decide
      · rw [if_neg h2] at h
        injection h with h
        subst h
        rcases hc with rfl | rfl | rfl | rfl <;> decide
    · rw [if_neg h1] at h
      by_cases h2 : c = '~'
      · rw [if_pos (by simp [h2])] at h
        by_cases h3 : rest.head? = some '='
        · rw [if_pos h3] at h
          injection h with h
          subst h
          decide
        · rw [if_neg h3] at h
          simp at h
      · rw [if_neg (by simp [h2])] at h
        simp at h

theorem materialize_cons (site : Listing) (p : String × Item) (rest : Listing) :
    materialize site (p :: rest)
      = materialize (if (alookup site p.1).isSome then site else site ++ [p]) rest := rfl

/-! ## Claim theorems -/

/-- C8: materializing a cache entry into a project site directory never
overwrites an existing destination entry: any name already bound in the
site directory keeps its original item (first link/copy wins). -/
theorem materialize_no_overwrite (site entry : Listing) (x : String) (v : Item)
    (h : alookup site x = some v) : alookup (materialize site entry) x = some v := by
  induction entry generalizing site with
  | nil => simpa [materialize] using h
  | cons p rest ih =>
    rw [materialize_cons]
    by_cases hc : (alookup site p.1).isSome
    · rw [if_pos hc]
      exact ih site h
    · rw [if_neg hc]
      exact ih _ (alookup_append_left site [p] x v h)

/-- Witness for C8 at a concrete site/cache pair sharing the name `x`. -/
theorem materialize_no_overwrite_witness :
    alookup siteWithX "x" = some ⟨none, [1]⟩ ∧
      alookup (materialize siteWithX entryWithX) "x" = some ⟨none, [1]⟩ :=
  ⟨by decide, materialize_no_overwrite siteWithX entryWithX "x" ⟨none, [1]⟩ (by decide)⟩

/-- C5: the version comparator returns the spec's test-vector results. -/
theorem version_vectors :
    _version_satisfies "1.4.5" "~=" "1.4.2" = true ∧
      _version_satisfies "1.5.0" "~=" "1.4.2" = false ∧
      _version_satisfies "2.0" "==" "2.0.0" = true := by
  refine ⟨by decide, by decide, by decide⟩

/-- C10: `satisfies` is reflexive for `==`: comparing any version string
with itself under `==` yields `true`. -/
theorem version_eq_refl (v : String) : _version_satisfies v "==" v = true := by
  have hb : _version_satisfies_body v "==" v = .ok (some true) := by
    unfold _version_satisfies_body
    rw [mapIntE_ok]
    simp
  unfold _version_satisfies
  rw [if_neg (by decide : ¬("==" : String) = ""), hb]

/-- C9: the version comparator is total: for every triple of strings the
`try:` body returns normally (no exception reaches the `except` clause) and
the function returns a boolean determined by it — parse failures cannot
escape as exceptions. -/
theorem version_satisfies_total (installed operator required : String) :
    ∃ o : Option Bool, _version_satisfies_body installed operator required = .ok o ∧
      _version_satisfies installed operator required
        = (if operator = "" then true else o.getD false) := by
  obtain ⟨o, ho⟩ := version_body_ok installed operator required
  refine ⟨o, ho, ?_⟩
  unfold _version_satisfies
  by_cases hop : operator = ""
  · rw [if_pos hop, if_pos hop]
  · rw [if_neg hop, if_neg hop, ho]
    cases o with
    | none => rfl
    | some b => rfl

/-- C4 counterexample: the operator regex `[<>=!]=?|~=` also matches the
bare `=` and bare `!`, so these requirements parse successfully instead of
failing with `InvalidRequirement`. -/
theorem parse_accepts_bare_operators :
    _parse_requirement "foo=1.0" = .ok ("foo", "=", "1.0") ∧
      _parse_requirement "foo!2" = .ok ("foo", "!", "2") :=
  ⟨rfl, rfl⟩

/-- C4 amended: every successful parse yields an operator from the nine
matches of `[<>=!]=?|~=` (the claimed seven plus bare `=` and bare `!`),
or the empty operator when no constraint follows the name. -/
theorem parseRemaining_op (pkg : String) (remaining : List Char) (name op ver : String)
    (h : parseRemaining pkg remaining = .ok (name, op, ver)) :
    op ∈ (["", "==", ">=", "<=", ">", "<", "!=", "~=", "=", "!"] : List String) := by
  unfold parseRemaining at h
  by_cases h1 : remaining = []
  · rw [if_pos h1] at h
    simp only [Except.ok.injEq, Prod.mk.injEq] at h
    obtain ⟨-, h2, -⟩ := h
    rw [← h2]
    decide
  · rw [if_neg h1] at h
    cases hm : matchOperator remaining with
    | none => rw [hm] at h; simp at h
    | some opStr =>
      rw [hm] at h
      dsimp only [] at h
      by_cases h2 : pyStrip (remaining.drop opStr.data.length) = []
      · rw [if_pos h2] at h
        simp at h
      · rw [if_neg h2] at h
        simp only [Except.ok.injEq, Prod.mk.injEq] at h
        obtain ⟨-, h4, -⟩ := h
        rw [← h4]
        have h9 := matchOperator_mem remaining opStr hm
        simp only [List.mem_cons, List.not_mem_nil, or_false] at h9 ⊢
        tauto

theorem parse_operator_set (req name op ver : String)
    (h : _parse_requirement req = .ok (name, op, ver)) :
    op ∈ (["", "==", ">=", "<=", ">", "<", "!=", "~=", "=", "!"] : List String) := by
  unfold _parse_requirement parseAfterStrip at h
  by_cases h1 : (pyStrip req.data).takeWhile isNameChar = []
  · rw [if_pos h1] at h
    simp at h
  · rw [if_neg h1] at h
    exact parseRemaining_op _ _ name op ver h

/-- Witness for C4's amended theorem at `"foo=1.0"`. -/
theorem parse_operator_set_witness :
    _parse_requirement "foo=1.0" = .ok ("foo", "=", "1.0") ∧
      ("=" : String) ∈ (["", "==", ">=", "<=", ">", "<", "!=", "~=", "=", "!"] : List String) :=
  ⟨rfl, parse_operator_set "foo=1.0" "foo" "=" "1.0" rfl⟩

/-- C7: the binary-archive scanner, on any well-formed ar container,
extracts exactly the declared bytes of the first member whose name contains
`data.tar` (skipping earlier members with odd-size padding, ignoring later
ones); with no such member it finds nothing (so the install fails when the
payload tarball is absent); a wrong 8-byte magic is a format error. -/
theorem deb_scan_spec :
    (∀ (pre : List ArMember) (t : ArMember) (post : List ArMember),
        (∀ m ∈ pre, goodMemberB m = true ∧ containsSub dataTarBytes m.name = false) →
        goodMemberB t = true → containsSub dataTarBytes t.name = true →
        debFindData (encodeAr (pre ++ t :: post)) = .ok (some t.content)) ∧
      (∀ ms : List ArMember,
        (∀ m ∈ ms, goodMemberB m = true ∧ containsSub dataTarBytes m.name = false) →
        debFindData (encodeAr ms) = .ok none) ∧
      (∀ file : List Nat, file.take 8 ≠ arMagic → debFindData file = .error .invalidFormat) := by
  refine ⟨?_, ?_, ?_⟩
  · intro pre t post hpre ht htc
    rw [debFindData_encodeAr]
    exact debLoop_encodeMembers_hit pre t post hpre ht htc
  · intro ms hms
    rw [debFindData_encodeAr]
    exact debLoop_encodeMembers_none ms hms
  · intro file hf
    unfold debFindData
    rw [if_neg hf]

/-- Witness for C7: a two-member archive (`control.tar.gz` then
`data.tar.xz`), a data-less archive, and a bad-magic file. -/
theorem deb_scan_spec_witness :
    (goodMemberB ctrlMember = true ∧ containsSub dataTarBytes ctrlMember.name = false) ∧
      goodMemberB dataMember = true ∧ containsSub dataTarBytes dataMember.name = true ∧
      debFindData (encodeAr [ctrlMember, dataMember]) = .ok (some [2, 3]) ∧
      debFindData (encodeAr [ctrlMember]) = .ok none ∧
      debFindData [0, 1, 2, 3, 4, 5, 6, 7, 8, 9] = .error .invalidFormat := by
  refine ⟨⟨by decide, by decide⟩, by decide, by decide, ?_, ?_, ?_⟩
  · exact deb_scan_spec.1 [ctrlMember] dataMember [] (by decide) (by decide) (by decide)
  · exact deb_scan_spec.2.1 [ctrlMember] (by decide)
  · exact deb_scan_spec.2.2 [0, 1, 2, 3, 4, 5, 6, 7, 8, 9] (by decide)

/-- C3 counterexample: extracting the test archive leaves the leftover
empty directory `mypkg-1.0` (and `mypkg-1.0/mypkg`) in the destination —
`tar.extract` creates them and `shutil.move` only renames the file — so
"no directory named mypkg-1.0 exists" fails on the code. -/
theorem tar_strip_leftover_dir :
    extractTar tarStripMembers ⟨[], []⟩ = .ok tarStripResult ∧
      (["mypkg-1.0"] : List String) ∈ tarStripResult.dirs := by
  refine ⟨rfl, by decide⟩

/-- C3 amended: extraction produces `<dest>/mypkg/__init__.py` with content
`b"ok"` and leaves no file under `mypkg-1.0`, but the empty directories
`mypkg-1.0` and `mypkg-1.0/mypkg` remain in the destination. -/
theorem tar_strip_correct :
    extractTar tarStripMembers ⟨[], []⟩ = .ok tarStripResult ∧
      getFile tarStripResult ["mypkg", "__init__.py"] = some [111, 107] ∧
      (∀ p ∈ tarStripResult.files, ¬p.1.take 1 = ["mypkg-1.0"]) ∧
      ["mypkg-1.0"] ∈ tarStripResult.dirs := by
  refine ⟨rfl, by decide, by decide, by decide⟩

/-- C6 counterexample: starting from a state with no directories,
`is_installed` creates the whole project-site directory chain
(`get_project_site_packages` calls `mkdir(parents=True, exist_ok=True)`),
refuting "it creates no files or directories". -/
theorem is_installed_creates_dirs :
    sysSt0.dirs = [] ∧
      (is_installed_effects impNone sysSt0 "foo" "demo").2.dirs
        = ["files", "files/projects", "files/projects/demo",
           "files/projects/demo/site-packages"] :=
  ⟨rfl, rfl⟩

/-- C6 amended: `is_installed` restores the module search path before
returning, and its only state effects are creating the project site
directory chain and (on a successful import) registering the imported
module named by the requirement. -/
theorem is_installed_frame (imp : String → Option (Option String)) (st : SysSt)
    (req proj : String) :
    (is_installed_effects imp st req proj).2.path = st.path ∧
      (∀ d ∈ (is_installed_effects imp st req proj).2.dirs,
        d ∈ st.dirs ∨ d ∈ siteDirChain proj) ∧
      (∀ m ∈ (is_installed_effects imp st req proj).2.modules,
        m ∈ st.modules ∨ ∃ name op ver,
          _parse_requirement req = .ok (name, op, ver) ∧ m = name) := by
  unfold is_installed_effects
  cases hp : _parse_requirement req with
  | error e =>
    exact ⟨rfl, fun d hd => Or.inl hd, fun m hm => Or.inl hm⟩
  | ok triple =>
    obtain ⟨name, op, ver⟩ := triple
    dsimp only []
    cases him : imp name with
    | none =>
      refine ⟨rfl, fun d hd => mem_mkdirChain _ _ d hd, fun m hm => Or.inl hm⟩
    | some v =>
      refine ⟨rfl, fun d hd => mem_mkdirChain _ _ d hd, fun m hm => ?_⟩
      dsimp only [] at hm
      by_cases hmem : name ∈ st.modules
      · rw [if_pos hmem] at hm
        exact Or.inl hm
      · rw [if_neg hmem] at hm
        rcases List.mem_append.mp hm with h1 | h2
        · exact Or.inl h1
        · simp only [List.mem_singleton] at h2
          exact Or.inr ⟨name, op, ver, rfl, h2⟩

/-- Witness for C6's amended theorem: the path really is restored. -/
theorem is_installed_frame_witness :
    (is_installed_effects impNone sysSt0 "foo" "demo").2.path = sysSt0.path :=
  (is_installed_frame impNone sysSt0 "foo" "demo").1

/-- C1 counterexample: with `foo` already cached at version `2.0` and an
empty site directory, `install("foo==1.0", source="termux")` returns `true`
(the Termux installer short-circuits on the cache and ignores the version),
yet the linked package's version `2.0` does not satisfy `== 1.0`. -/
theorem install_ignores_version_cex :
    install envNoNet stFooCached "foo==1.0" Source.termux = .ok (true, stFooLinked, []) ∧
      alookup stFooLinked.site "foo" = some ⟨some "2.0", []⟩ ∧
      _version_satisfies "2.0" "==" "1.0" = false := by
  refine ⟨rfl, by decide, by decide⟩

/-- C1 amended: for every requirement that parses, `install` returns `true`
iff the requirement was already satisfied at entry or the selected source
installer reported success; installer success does not imply that the
version constraint holds at the end of the call. -/
theorem install_true_iff (env : Env) (st : St) (req : String) (source : Source)
    (name op ver : String) (h : _parse_requirement req = .ok (name, op, ver)) :
    (∃ st2 tr, install env st req source = .ok (true, st2, tr)) ↔
      (is_installed st req = true ∨ (selectedInstall env st name op ver source).1 = true) := by
  unfold install
  rw [h]
  dsimp only []
  by_cases hi : is_installed st req = true
  · rw [if_pos hi]
    exact ⟨fun _ => Or.inl hi, fun _ => ⟨st, [], rfl⟩⟩
  · rw [if_neg hi]
    constructor
    · rintro ⟨st2, tr, h2⟩
      by_cases hs : (selectedInstall env st name op ver source).1 = true
      · exact Or.inr hs
      · exfalso
        have hsf : (selectedInstall env st name op ver source).1 = false := by
          simpa using hs
        rw [if_neg (by simp [hsf])] at h2
        simp at h2
    · rintro (h1 | hs)
      · exact absurd h1 hi
      · rw [if_pos hs]
        cases halo : alookup (selectedInstall env st name op ver source).2.1.cache name with
        | some entry => exact ⟨_, _, rfl⟩
        | none => exact ⟨_, _, rfl⟩

/-- Witness for C1's amended theorem at the counterexample input. -/
theorem install_true_iff_witness :
    _parse_requirement "foo==1.0" = .ok ("foo", "==", "1.0") ∧
      ((∃ st2 tr, install envNoNet stFooCached "foo==1.0" Source.termux
          = .ok (true, st2, tr)) ↔
        (is_installed stFooCached "foo==1.0" = true ∨
          (selectedInstall envNoNet stFooCached "foo" "==" "1.0" Source.termux).1 = true)) :=
  ⟨rfl, install_true_iff envNoNet stFooCached "foo==1.0" Source.termux "foo" "==" "1.0" rfl⟩

/-- C2 counterexample: with `bar` already cached, the PyPI installer still
performs the index fetch and reports failure (the oracle has no package),
instead of short-circuiting to success with no network traffic. -/
theorem pypi_no_shortcircuit_cex :
    (alookup stBarCached.cache "bar").isSome = true ∧
      _install_from_pypi envNoNet stBarCached "bar" "" ""
        = (false, stBarCached, ["GET index/bar"]) :=
  ⟨by decide, rfl⟩

/-- C2 amended: the PyPI installer never short-circuits — its first action
is always the index-page fetch, regardless of the cache — while the binary
(Termux) installer does short-circuit to success, with no network traffic,
whenever the cache entry exists. -/
theorem pypi_always_fetches (env : Env) (st : St) (pkg op ver : String) :
    (_install_from_pypi env st pkg op ver).2.2.head? = some ("GET index/" ++ pkg) ∧
      ((alookup st.cache pkg).isSome = true →
        _install_from_termux env st pkg = (true, st, [])) := by
  constructor
  · unfold _install_from_pypi
    cases env.pypiFetch pkg op ver <;> rfl
  · intro hc
    unfold _install_from_termux
    rw [if_pos hc]

/-- Witness for C2's amended theorem at a cached package. -/
theorem pypi_always_fetches_witness :
    (_install_from_pypi envNoNet stBarCached "bar" "" "").2.2.head?
        = some ("GET index/" ++ "bar") ∧
      (alookup stBarCached.cache "bar").isSome = true ∧
      _install_from_termux envNoNet stBarCached "bar" = (true, stBarCached, []) :=
  ⟨(pypi_always_fetches envNoNet stBarCached "bar" "" "").1, by decide,
    (pypi_always_fetches envNoNet stBarCached "bar" "" "").2 (by decide)⟩

end Packman
